import Mathlib

/-!
# Verification of the slack-collate-canvas export pipeline

Shallow embedding of the thread-grouping, caption-wrapping, PDF layout and
delivery-state-machine code of the repository (src/src/index.ts and the
robust-upload variant of `export_pdf`), together with proofs of the
testable properties stated in the specification.

Numeric page/layout arithmetic is modelled over `ℚ`; byte buffers are
`List Nat`; external effects (Slack API calls, HTTP transport, the font
width metric, image decoding) are modelled as explicit oracle parameters,
so every function here is a pure, executable function of its declared
inputs.
-/

namespace SlackCollate

/-! ## Word wrapping (`wrap` in src/src/index.ts, lines 488–511)

The source first strips `\r` characters (`.replace(/\r/g, "")`), then
splits on runs of whitespace (`.split(/\s+/)`, which keeps a leading or
trailing empty token exactly like the JavaScript regex split), then packs
words greedily against a width metric `font.widthOfTextAtSize`. -/

/-- Removal of every carriage return, modelling `.replace(/\r/g, "")`. -/
def stripCR (s : String) : String :=
  String.mk (s.toList.filter (fun c => c ≠ '\r'))

/-- Worker for whitespace splitting: `cur` is the current token, reversed;
`none` means the scanner is inside a whitespace run whose token was
already emitted.  A whitespace character ends the current token and the
rest of the run is swallowed, exactly like splitting on the regex
`/\s+/` (which keeps a leading or trailing empty token). -/
def splitWsGo : List Char → Option (List Char) → List String
  | [], some cur => [String.mk cur.reverse]
  | [], none => [""]
  | c :: cs, some cur =>
    if c.isWhitespace then String.mk cur.reverse :: splitWsGo cs none
    else splitWsGo cs (some (c :: cur))
  | c :: cs, none =>
    if c.isWhitespace then splitWsGo cs none
    else splitWsGo cs (some [c])

/-- JavaScript's `"…".split(/\s+/)`. -/
def splitWs (s : String) : List String :=
  splitWsGo s.toList (some [])

/-- Greedy line packing, faithful to the `for (const w of words)` loop of
`wrap`: `cur` is the running line, `lines` the committed lines.  A word
that does not fit commits the running line (when non-empty) and, when the
committed count reaches `maxLines - 1`, the loop `break`s; the trailing
`if (cur) lines.push(cur)` is the `[]` case and the post-`break` push. -/
def wrapGo (widthOf : String → ℚ → ℚ) (maxWidth size : ℚ) (maxLines : Nat) :
    List String → String → List String → List String
  | [], cur, lines => lines ++ (if cur ≠ "" then [cur] else [])
  | w :: ws, cur, lines =>
    let test := if cur ≠ "" then cur ++ " " ++ w else w
    if widthOf test size ≤ maxWidth then
      wrapGo widthOf maxWidth size maxLines ws test lines
    else
      let lines2 := if cur ≠ "" then lines ++ [cur] else lines
      if lines2.length ≥ maxLines - 1 then
        lines2 ++ (if w ≠ "" then [w] else [])
      else
        wrapGo widthOf maxWidth size maxLines ws w lines2

/-- The function `wrap(text, maxWidth, size, maxLines)` of src/src/index.ts. -/
def wrap (widthOf : String → ℚ → ℚ) (text : String) (maxWidth size : ℚ)
    (maxLines : Nat) : List String :=
  wrapGo widthOf maxWidth size maxLines (splitWs (stripCR text)) "" []

/-- A toy width metric (one unit per character) used for concrete runs. -/
def charWidth : String → ℚ → ℚ :=
  fun s _ => (s.length : ℚ)

/-! ## Thread Grouper (`export_pdf` group-collection loop, src/src/index.ts
lines 396–422)

A message is skipped when it has no `files` array or an empty one; a
group is pushed exactly when the message has at least one file whose
`mimetype` matches `/^image\//`; the caption is the first truthy of
message text, first file's inline comment, first file's title (all
trimmed). -/

/-- A Slack file object as consumed by the grouping loop. -/
structure SlackFile where
  id : String
  mimetype : Option String
  title : Option String
  initialComment : Option String
  deriving Repr, DecidableEq

/-- A Slack thread message as consumed by the grouping loop. -/
structure SlackMessage where
  text : Option String
  files : Option (List SlackFile)
  deriving Repr, DecidableEq

/-- A caption-image group (`type Group` of `export_pdf`). -/
structure Group where
  caption : String
  captionEs : Option String
  fileIds : List String
  deriving Repr, DecidableEq

/-- JavaScript truthiness for an optional string: `undefined` and `""`
are falsy. -/
def truthyStr : Option String → Option String
  | some s => if s = "" then none else some s
  | none => none

/-- JavaScript `a || b` on optional strings. -/
def jsOr (a b : Option String) : Option String :=
  match truthyStr a with
  | some s => some s
  | none => truthyStr b

/-- The test `/^image\//.test(f.mimetype || "")`. -/
def isImageFile (f : SlackFile) : Bool :=
  (f.mimetype.getD "").startsWith "image/"

/-- Caption resolution order: message text, first file's inline comment,
first file's title, each trimmed, first truthy wins, else `""`. -/
def resolveCaption (m : SlackMessage) (fs : List SlackFile) : String :=
  let fromText := m.text.map String.trim
  let fromComment := (fs.head?.bind SlackFile.initialComment).map String.trim
  let fromTitle := (fs.head?.bind SlackFile.title).map String.trim
  (jsOr fromText (jsOr fromComment fromTitle)).getD ""

/-- The Spanish caption assignment: only under `ADD_SPANISH` and only when
the translation oracle reports success with non-empty text. -/
def spanishCaption (addSpanish : Bool) (translate : String → Option String)
    (caption : String) : Option String :=
  if addSpanish then
    match translate caption with
    | some es => if es = "" then none else some es
    | none => none
  else none

/-- The group a single message contributes, if any. -/
def mkGroup (addSpanish : Bool) (translate : String → Option String)
    (m : SlackMessage) : Option Group :=
  match m.files with
  | none => none
  | some fs =>
    if fs.isEmpty then none
    else
      let caption := resolveCaption m fs
      let fileIds := (fs.filter isImageFile).map SlackFile.id
      if fileIds.isEmpty then none
      else some { caption := caption
                  captionEs := spanishCaption addSpanish translate caption
                  fileIds := fileIds }

/-- The `for (const m of messages)` collection loop of `export_pdf`. -/
def collectGroups (addSpanish : Bool) (translate : String → Option String) :
    List SlackMessage → List Group
  | [] => []
  | m :: ms =>
    match mkGroup addSpanish translate m with
    | none => collectGroups addSpanish translate ms
    | some g => g :: collectGroups addSpanish translate ms

/-- Whether a message contains at least one image-typed attachment. -/
def hasImageFile (m : SlackMessage) : Bool :=
  match m.files with
  | none => false
  | some fs => fs.any isImageFile

/-! ## Asset Fetcher (`downloadOriginal`, src/src/index.ts lines 90–108) -/

/-- The part of the `files.info` response consulted by `downloadOriginal`. -/
structure FileInfo where
  urlPrivateDownload : Option String
  urlPrivate : Option String
  deriving Repr, DecidableEq

/-- Outcome of one HTTP fetch: the transport may throw, or respond with a
status and (unless reading the body itself throws) a byte body. -/
inductive FetchOutcome where
  | throws
  | response (ok : Bool) (body : Option (List Nat))
  deriving Repr, DecidableEq

/-- Environment oracle for one `downloadOriginal` call: `infoResult = none`
models `files.info` throwing; the transport is consulted by URL. -/
structure DlEnv where
  infoResult : Option FileInfo
  transport : String → FetchOutcome

/-- The URL choice `info.file?.url_private_download || info.file?.url_private`. -/
def urlOf (i : FileInfo) : Option String :=
  jsOr i.urlPrivateDownload i.urlPrivate

/-- Shallow embedding of `downloadOriginal`: every failure path of the
source (`files.info` throws, missing URL, transport throws, non-success
status, body read throws) is absorbed by the surrounding `try`/`catch`
and early `return null`s. -/
def downloadOriginal (env : DlEnv) : Option (List Nat) :=
  match env.infoResult with
  | none => none
  | some info =>
    match urlOf info with
    | none => none
    | some url =>
      match env.transport url with
      | .throws => none
      | .response ok body =>
        if ok then
          match body with
          | none => none
          | some bytes => some bytes
        else none

/-! ## Layout Engine (`export_pdf` STEP 3, src/src/index.ts lines 440–639)

Geometry constants exactly as declared in the source. -/

def pageW : ℚ := 612
def pageH : ℚ := 792
def margin : ℚ := 36
def contentW : ℚ := pageW - margin * 2
def gutter : ℚ := 16
def titleSize : ℚ := 14
def captionSize : ℚ := 11
def captionEsSize : ℚ := 10
def lineH : ℚ := captionSize + 3
def lineHes : ℚ := captionEsSize + 2
def maxCaptionLines : Nat := 8
def maxCaptionEsLines : Nat := 8
def tileW : ℚ := ((⌊(contentW - gutter) / 2⌋ : ℤ) : ℚ)
def tileHMax : ℚ := 240

/-- Per-image render outcome: the download may fail (`downloadOriginal`
returns null), the recompress/embed may throw, or the image embeds with
pixel dimensions `iw × ih`. -/
inductive RenderOutcome where
  | failed
  | decodeError
  | img (iw ih : Nat)
  deriving Repr, DecidableEq

/-- One drawn page element, tagged with the file id for tile outputs. -/
inductive Item where
  | text (x y : ℚ) (content : String) (size : ℚ)
  | image (x y w h : ℚ) (fileId : String)
  | fallback (x y : ℚ) (content : String) (fileId : String)
  deriving Repr, DecidableEq

/-- Layout cursor state: closed pages, the current page's items in draw
order, and the vertical cursor `y`. -/
structure LState where
  donePages : List (List Item)
  cur : List Item
  y : ℚ
  deriving Repr

/-- Draw one element onto the current page. -/
def emit (it : Item) (s : LState) : LState :=
  { s with cur := s.cur ++ [it] }

/-- The primitive `ensureSpace(required)`: advance to a fresh page when the cursor
would cross the bottom margin. -/
def ensureSpace (required : ℚ) (s : LState) : LState :=
  if s.y - required < margin then
    { donePages := s.donePages ++ [s.cur], cur := [], y := pageH - margin }
  else s

/-- The tile renderer `drawTile(x, topY, fileId)`: download failure and decode/embed errors
are absorbed into a fallback text placement of height `tileHMax`; a
decodable image is scaled to fit `tileW × tileHMax` preserving aspect
ratio.  Returns the drawn item and the returned row height. -/
def drawTile (rend : String → RenderOutcome) (x topY : ℚ) (fileId : String) :
    Item × ℚ :=
  match rend fileId with
  | .failed => (Item.fallback x (topY - lineH) "[download failed]" fileId, tileHMax)
  | .decodeError => (Item.fallback x (topY - lineH) "[image error]" fileId, tileHMax)
  | .img iw ih =>
    let scale : ℚ := min (tileW / (iw : ℚ)) (tileHMax / (ih : ℚ))
    (Item.image x (topY - (ih : ℚ) * scale) ((iw : ℚ) * scale) ((ih : ℚ) * scale)
       fileId, (ih : ℚ) * scale)

/-- The caption-drawing loop: draw each line at `x`, stepping `yy` down by
the line height. -/
def drawTextColumn (x size lh : ℚ) : List String → ℚ → List Item
  | [], _ => []
  | l :: ls, yy => Item.text x yy l size :: drawTextColumn x size lh ls (yy - lh)

/-- The numbered English caption block `${num}. ${g.caption || ""}`. -/
def englishBlock (num : Nat) (caption : String) : String :=
  toString num ++ ". " ++ caption

/-- The wrapped English caption lines of one group. -/
def capLinesOf (widthOf : String → ℚ → ℚ) (num : Nat) (caption : String) :
    List String :=
  wrap widthOf (englishBlock num caption) contentW captionSize maxCaptionLines

/-- The source's `capHeight`: zero only when no caption line was produced. -/
def capHeightOf (widthOf : String → ℚ → ℚ) (num : Nat) (caption : String) : ℚ :=
  if (capLinesOf widthOf num caption).length ≠ 0 then
    ((capLinesOf widthOf num caption).length : ℚ) * lineH + 2
  else 0

/-- The wrapped Spanish caption lines (`ADD_SPANISH && g.captionEs`). -/
def esLinesOf (widthOf : String → ℚ → ℚ) (addSpanish : Bool) (g : Group) :
    List String :=
  if addSpanish then
    match g.captionEs with
    | some es =>
      if es = "" then [] else wrap widthOf es contentW captionEsSize maxCaptionEsLines
    | none => []
  else []

/-- The source's `esHeight`. -/
def esHeightOf (widthOf : String → ℚ → ℚ) (addSpanish : Bool) (g : Group) : ℚ :=
  if (esLinesOf widthOf addSpanish g).length ≠ 0 then
    ((esLinesOf widthOf addSpanish g).length : ℚ) * lineHes + 6
  else 0

/-- The source's `firstRow`: space reserved for the first image row, zero for an
imageless group. -/
def firstRowOf (g : Group) : ℚ :=
  if g.fileIds.isEmpty then 0 else tileHMax + 14

/-- The amount handed to `ensureSpace` before a group is drawn. -/
def reserveOf (widthOf : String → ℚ → ℚ) (addSpanish : Bool) (num : Nat)
    (g : Group) : ℚ :=
  capHeightOf widthOf num g.caption + esHeightOf widthOf addSpanish g + firstRowOf g

/-- Draw the English caption block (`if (capHeight) { … }`). -/
def drawCaptionBlock (capLines : List String) (s : LState) : LState :=
  if capLines.length ≠ 0 then
    { s with
      cur := s.cur ++ drawTextColumn margin captionSize lineH capLines (s.y - captionSize)
      y := s.y - captionSize - (capLines.length : ℚ) * lineH - 2 }
  else s

/-- Draw the Spanish caption block (`if (esLines.length) { … }`). -/
def drawSpanishBlock (esLines : List String) (s : LState) : LState :=
  if esLines.length ≠ 0 then
    { s with
      cur := s.cur ++ drawTextColumn margin captionEsSize lineHes esLines (s.y - captionEsSize)
      y := s.y - captionEsSize - (esLines.length : ℚ) * lineHes - 6 }
  else s

/-- The two-per-row image loop (`for (let i = 0; i < g.fileIds.length;
i += 2)`): reserve a row, draw the left tile at the cursor, the right
tile when one remains, then advance by the taller tile plus the row gap. -/
def imageRows (rend : String → RenderOutcome) : List String → LState → LState
  | [], s => s
  | [a], s =>
    let s1 := ensureSpace (tileHMax + 14) s
    let tL := drawTile rend margin s1.y a
    let s2 := emit tL.1 s1
    { s2 with y := s2.y - (max tL.2 0 + 14) }
  | a :: b :: rest, s =>
    let s1 := ensureSpace (tileHMax + 14) s
    let tL := drawTile rend margin s1.y a
    let s2 := emit tL.1 s1
    let tR := drawTile rend (margin + tileW + gutter) s2.y b
    let s3 := emit tR.1 s2
    imageRows rend rest { s3 with y := s3.y - (max tL.2 tR.2 + 14) }

/-- One iteration of the group layout loop (`idx`-th group). -/
def groupStep (widthOf : String → ℚ → ℚ) (rend : String → RenderOutcome)
    (addSpanish : Bool) (idx : Nat) (g : Group) (s : LState) : LState :=
  let s1 := ensureSpace (reserveOf widthOf addSpanish (idx + 1) g) s
  let s2 := drawCaptionBlock (capLinesOf widthOf (idx + 1) g.caption) s1
  let s3 := drawSpanishBlock (esLinesOf widthOf addSpanish g) s2
  let s4 := imageRows rend g.fileIds s3
  { s4 with y := s4.y - 10 }

/-- The group loop of STEP 3. -/
def groupLoop (widthOf : String → ℚ → ℚ) (rend : String → RenderOutcome)
    (addSpanish : Bool) : Nat → List Group → LState → LState
  | _, [], s => s
  | idx, g :: gs, s =>
    groupLoop widthOf rend addSpanish (idx + 1) gs
      (groupStep widthOf rend addSpanish idx g s)

/-- The first page with the document title drawn and the cursor dropped by
`titleSize + 20`. -/
def initState (title : String) : LState :=
  { donePages := []
    cur := [Item.text margin (pageH - margin - titleSize) title titleSize]
    y := pageH - margin - (titleSize + 20) }

/-- The whole layout pass: a pure function of the width metric, the
per-image render outcomes, the Spanish flag, the title, and the groups. -/
def runLayout (widthOf : String → ℚ → ℚ) (rend : String → RenderOutcome)
    (addSpanish : Bool) (title : String) (groups : List Group) : LState :=
  groupLoop widthOf rend addSpanish 0 groups (initState title)

/-- All drawn items of all pages, in chronological draw order. -/
def allItems (s : LState) : List Item :=
  s.donePages.flatten ++ s.cur

/-- The file id a tile output consumes (`none` for plain text runs). -/
def tileRef : Item → Option String
  | .text _ _ _ _ => none
  | .image _ _ _ _ fid => some fid
  | .fallback _ _ _ fid => some fid

/-- The file ids consumed by tile outputs, in draw order. -/
def tileRefs (items : List Item) : List String :=
  items.filterMap tileRef

/-- Number of pages of the laid-out document. -/
def pageCount (s : LState) : Nat :=
  s.donePages.length + 1

/-! ## Delivery State Machine (`export_pdf` steps 4–7 of the robust-upload
variant, src/unnamed/part_004 lines 301–416)

`files.getUploadURLExternal` is called with `length: byteLen` where
`byteLen = bodyBuf.length`; the PUT sends `bodyBuf` with
`Content-Length: byteLen`; verification polls `files.info` up to 8 times
at 1-second spacing, accepting only an exact byte-length match; an
unverified upload falls back to `files.uploadV2` with the same buffer. -/

/-- Outcome of one verification poll attempt: a successful re-download of
`len` bytes, a missing download URL, a non-success HTTP status, or an
exception (which the surrounding `try`/`catch` turns into fallback). -/
inductive PollOutcome where
  | ok (len : Nat)
  | noUrl
  | httpErr
  | throws
  deriving Repr, DecidableEq

/-- Environment oracle for one delivery run. -/
structure DeliveryEnv where
  initOk : Bool
  putOk : Bool
  completeOk : Bool
  poll : Nat → PollOutcome
  fallbackOk : Bool

/-- The delivery stages, including the two terminal successes and the
terminal failure. -/
inductive DStage where
  | reserving
  | transferring
  | finalizing
  | verifying
  | done
  | fallbackTransferring
  | fallbackDone
  | failed
  deriving Repr, DecidableEq

/-- Observable delivery events: byte lengths declared or transferred, poll
attempts, and the inter-poll sleeps. -/
inductive DEvent where
  | reserve (declaredLen : Nat)
  | put (contentLength bodyLen : Nat)
  | finalize
  | pollAttempt (i : Nat)
  | sleep (ms : Nat)
  | fallbackUpload (bodyLen : Nat)
  deriving Repr, DecidableEq

/-- The bounded verification loop (`for (let i = 0; i < 8; i++)`): an
exact length match breaks with success; an exception aborts the loop;
otherwise the loop sleeps 1000 ms and retries.  `fuel` counts remaining
iterations, `i` the attempt index. -/
def verifyGo (poll : Nat → PollOutcome) (target : Nat) :
    Nat → Nat → List DEvent × Bool
  | 0, _ => ([], false)
  | fuel + 1, i =>
    match poll i with
    | .ok len =>
      if len = target then ([.pollAttempt i], true)
      else
        let r := verifyGo poll target fuel (i + 1)
        (.pollAttempt i :: .sleep 1000 :: r.1, r.2)
    | .throws => ([.pollAttempt i], false)
    | .noUrl =>
      let r := verifyGo poll target fuel (i + 1)
      (.pollAttempt i :: .sleep 1000 :: r.1, r.2)
    | .httpErr =>
      let r := verifyGo poll target fuel (i + 1)
      (.pollAttempt i :: .sleep 1000 :: r.1, r.2)

/-- Result of one delivery run: the event trace, the stages visited in
order, and the terminal stage. -/
structure DeliveryRun where
  events : List DEvent
  stages : List DStage
  final : DStage
  deriving Repr, DecidableEq

/-- Shallow embedding of steps 4–7 of `export_pdf` (robust-upload
variant): reserve with the declared byte length, PUT the exact buffer,
finalize, verify with the bounded poll loop, and fall back through
`files.uploadV2` when verification never observed a match. -/
def runDelivery (env : DeliveryEnv) (pdfBytes : List Nat) : DeliveryRun :=
  let byteLen := pdfBytes.length
  if ¬env.initOk then
    { events := [.reserve byteLen], stages := [.reserving], final := .failed }
  else if ¬env.putOk then
    { events := [.reserve byteLen, .put byteLen pdfBytes.length]
      stages := [.reserving, .transferring], final := .failed }
  else if ¬env.completeOk then
    { events := [.reserve byteLen, .put byteLen pdfBytes.length, .finalize]
      stages := [.reserving, .transferring, .finalizing], final := .failed }
  else
    let v := verifyGo env.poll byteLen 8 0
    if v.2 then
      { events := [.reserve byteLen, .put byteLen pdfBytes.length, .finalize] ++ v.1
        stages := [.reserving, .transferring, .finalizing, .verifying, .done]
        final := .done }
    else if env.fallbackOk then
      { events := [.reserve byteLen, .put byteLen pdfBytes.length, .finalize]
          ++ v.1 ++ [.fallbackUpload pdfBytes.length]
        stages := [.reserving, .transferring, .finalizing, .verifying,
          .fallbackTransferring, .fallbackDone]
        final := .fallbackDone }
    else
      { events := [.reserve byteLen, .put byteLen pdfBytes.length, .finalize]
          ++ v.1 ++ [.fallbackUpload pdfBytes.length]
        stages := [.reserving, .transferring, .finalizing, .verifying,
          .fallbackTransferring, .failed]
        final := .failed }

/-- The byte lengths declared when reserving the upload destination. -/
def reservedLens (tr : List DEvent) : List Nat :=
  tr.filterMap fun e =>
    match e with
    | .reserve d => some d
    | _ => none

/-- The (Content-Length, body length) pairs of transfer events. -/
def putPairs (tr : List DEvent) : List (Nat × Nat) :=
  tr.filterMap fun e =>
    match e with
    | .put c b => some (c, b)
    | _ => none

/-- The number of verification poll attempts in a trace. -/
def attemptCount (tr : List DEvent) : Nat :=
  tr.countP fun e =>
    match e with
    | .pollAttempt _ => true
    | _ => false

/-- The durations of all sleeps in a trace. -/
def sleepDurations (tr : List DEvent) : List Nat :=
  tr.filterMap fun e =>
    match e with
    | .sleep ms => some ms
    | _ => none

/-- A terminal success stage. -/
def isSuccess : DStage → Bool
  | .done => true
  | .fallbackDone => true
  | _ => false

/-- Whether one poll outcome is an exact byte-length match. -/
def pollMatches (target : Nat) : PollOutcome → Bool
  | .ok len => len = target
  | _ => false

/-- The byte lengths sent through the fallback (`files.uploadV2`) path. -/
def fallbackLens (tr : List DEvent) : List Nat :=
  tr.filterMap fun e =>
    match e with
    | .fallbackUpload b => some b
    | _ => none

/-! ## Concrete inputs used by the witness theorems -/

/-- A delivery environment where every stage succeeds and the first poll
matches two bytes. -/
def exEnvAllOk : DeliveryEnv :=
  { initOk := true, putOk := true, completeOk := true
    poll := fun _ => .ok 2, fallbackOk := true }

/-- A delivery environment whose polls never find a download URL but whose
fallback upload succeeds. -/
def exEnvNoMatch : DeliveryEnv :=
  { initOk := true, putOk := true, completeOk := true
    poll := fun _ => .noUrl, fallbackOk := true }

/-- A download environment with a private-download URL that serves three
bytes successfully. -/
def exDlEnv : DlEnv :=
  { infoResult := some { urlPrivateDownload := some "u", urlPrivate := none }
    transport := fun _ => .response true (some [1, 2, 3]) }

/-- A render oracle that decodes every file as a 500 × 400 image. -/
def exRend : String → RenderOutcome :=
  fun _ => .img 500 400

/-! # Theorems -/

/-! ## Word-wrap truncation (claim C6) -/

lemma wrapGo_length_le (widthOf : String → ℚ → ℚ) (maxWidth size : ℚ)
    (maxLines : Nat) (ws : List String) :
    ∀ cur lines, lines.length + 2 ≤ maxLines →
      (wrapGo widthOf maxWidth size maxLines ws cur lines).length ≤ maxLines := by
  induction ws with
  | nil =>
    intro cur lines h
    simp only [wrapGo, List.length_append]
    split <;> simp <;> omega
  | cons w ws ih =>
    intro cur lines h
    simp only [wrapGo]
    split_ifs <;>
      first
        | exact ih _ _ h
        | (simp only [List.length_append, List.length_cons, List.length_nil] at *
           omega)
        | (refine ih _ _ ?_
           simp only [ge_iff_le, not_le, List.length_append, List.length_cons,
             List.length_nil] at *
           omega)

/-- Claim C6, counterexample: with a maximum line count of 1, `wrap` can
return two lines — the break-check fires only after committing a line, and
the trailing push then adds one more.  With a one-unit-per-character
width metric, column width 1 and text `"a b"`, the claimed bound
`length ≤ maxLines` fails. -/
theorem wrap_exceeds_at_max_one :
    ¬ (wrap charWidth "a b" 1 1 1).length ≤ 1 := by
  decide

/-- Claim C6, amended: for every width metric, caption, column width, font
size, and maximum line count of **at least 2** (the source configures 8),
greedy wrapping returns at most `maxLines` lines; and the function is
total on empty input, returning no lines.  (With `maxLines ≤ 1` the bound
can be exceeded by one, see the counterexample.) -/
theorem wrap_bounded_amended (widthOf : String → ℚ → ℚ) (text : String)
    (maxWidth size : ℚ) (maxLines : Nat) (h : 2 ≤ maxLines) :
    (wrap widthOf text maxWidth size maxLines).length ≤ maxLines
    ∧ wrap widthOf "" maxWidth size maxLines = [] := by
  constructor
  · exact wrapGo_length_le widthOf maxWidth size maxLines _ "" [] (by simpa using h)
  · show wrapGo widthOf maxWidth size maxLines (splitWs (stripCR "")) "" [] = []
    have hsplit : splitWs (stripCR "") = [""] := rfl
    rw [hsplit]
    simp only [wrapGo]
    split_ifs <;> simp_all

/-- Witness for the amended claim C6 at a concrete input. -/
theorem wrap_bounded_amended_witness :
    (wrap charWidth "a b c d" 1 1 2).length ≤ 2
    ∧ wrap charWidth "" 1 1 2 = [] :=
  wrap_bounded_amended charWidth "a b c d" 1 1 2 (by norm_num)

/-! ## Thread Grouper counting (claim C5) -/

lemma mkGroup_isSome (addSpanish : Bool) (translate : String → Option String)
    (m : SlackMessage) :
    (mkGroup addSpanish translate m).isSome = hasImageFile m := by
  unfold mkGroup hasImageFile
  cases m.files with
  | none => rfl
  | some fs =>
    by_cases he : fs.isEmpty
    · have : fs = [] := List.isEmpty_iff.mp he
      simp [he, this]
    · by_cases hf : ((fs.filter isImageFile).map SlackFile.id).isEmpty
      · have hnil : fs.filter isImageFile = [] := by
          simpa using List.isEmpty_iff.mp hf
        have hany : fs.any isImageFile = false := by
          rw [List.any_eq_false]
          intro x hx
          exact List.filter_eq_nil_iff.mp hnil x hx
        simp [he, hf, hany]
      · have hne : fs.filter isImageFile ≠ [] := by
          intro hnil
          simp [hnil] at hf
        have hany : fs.any isImageFile = true := by
          rw [List.any_eq_true]
          obtain ⟨x, hx⟩ := List.exists_mem_of_ne_nil _ hne
          have hmem := List.mem_filter.mp hx
          exact ⟨x, hmem.1, hmem.2⟩
        simp [he, hf, hany]

lemma collectGroups_eq_filterMap (addSpanish : Bool)
    (translate : String → Option String) (msgs : List SlackMessage) :
    collectGroups addSpanish translate msgs
      = msgs.filterMap (mkGroup addSpanish translate) := by
  induction msgs with
  | nil => rfl
  | cons m ms ih =>
    simp only [collectGroups, List.filterMap_cons]
    cases mkGroup addSpanish translate m <;> simp [ih]

/-- Claim C5: the Thread Grouper emits exactly one group per message
containing at least one image-typed attachment and zero groups for every
other message — the emitted list is the image-bearing messages' groups in
thread order, so its length is the count of image-bearing messages; the
collection loop is a total function (it never raises). -/
theorem grouper_counts (addSpanish : Bool) (translate : String → Option String)
    (msgs : List SlackMessage) :
    collectGroups addSpanish translate msgs
      = msgs.filterMap (mkGroup addSpanish translate)
    ∧ (collectGroups addSpanish translate msgs).length
      = msgs.countP hasImageFile := by
  refine ⟨collectGroups_eq_filterMap addSpanish translate msgs, ?_⟩
  rw [collectGroups_eq_filterMap]
  induction msgs with
  | nil => rfl
  | cons m ms ih =>
    simp only [List.filterMap_cons, List.countP_cons]
    have hsome := mkGroup_isSome addSpanish translate m
    cases h : mkGroup addSpanish translate m with
    | none =>
      rw [h] at hsome
      simp only [Option.isSome_none] at hsome
      simp [← hsome, ih]
    | some g =>
      rw [h] at hsome
      simp only [Option.isSome_some] at hsome
      simp [← hsome, ih]

/-! ## Asset Fetcher failure absorption (claim C7) -/

/-- Claim C7: `downloadOriginal` returns `null` — never an exception —
when the download location is missing, when the transport status is
non-success, or when the transport (including the `files.info` call or
the body read) throws; when the location resolves and the transport
succeeds it returns exactly the downloaded bytes. -/
theorem fetch_null_on_failure (env : DlEnv) :
    (env.infoResult = none → downloadOriginal env = none)
    ∧ (∀ info, env.infoResult = some info → urlOf info = none →
        downloadOriginal env = none)
    ∧ (∀ info url, env.infoResult = some info → urlOf info = some url →
        env.transport url = .throws → downloadOriginal env = none)
    ∧ (∀ info url body, env.infoResult = some info → urlOf info = some url →
        env.transport url = .response false body → downloadOriginal env = none)
    ∧ (∀ info url, env.infoResult = some info → urlOf info = some url →
        env.transport url = .response true none → downloadOriginal env = none)
    ∧ (∀ info url bytes, env.infoResult = some info → urlOf info = some url →
        env.transport url = .response true (some bytes) →
        downloadOriginal env = some bytes) := by
  refine ⟨?_, ?_, ?_, ?_, ?_, ?_⟩
  · intro h; simp [downloadOriginal, h]
  · intro info h1 h2; simp [downloadOriginal, h1, h2]
  · intro info url h1 h2 h3; simp [downloadOriginal, h1, h2, h3]
  · intro info url body h1 h2 h3; simp [downloadOriginal, h1, h2, h3]
  · intro info url h1 h2 h3; simp [downloadOriginal, h1, h2, h3]
  · intro info url bytes h1 h2 h3; simp [downloadOriginal, h1, h2, h3]

/-- Witness for claim C7: in the all-success environment the fetched
bytes come back unchanged. -/
theorem fetch_null_on_failure_witness :
    downloadOriginal exDlEnv = some [1, 2, 3] :=
  (fetch_null_on_failure exDlEnv).2.2.2.2.2
    { urlPrivateDownload := some "u", urlPrivate := none } "u" [1, 2, 3]
    rfl (by decide) rfl

/-! ## Delivery State Machine (claims C2, C3, C9) -/

lemma verifyGo_events_shape (poll : Nat → PollOutcome) (target : Nat) :
    ∀ fuel i, ∀ e ∈ (verifyGo poll target fuel i).1,
      (∃ j, e = DEvent.pollAttempt j) ∨ e = DEvent.sleep 1000 := by
  intro fuel
  induction fuel with
  | zero => intro i e he; simp [verifyGo] at he
  | succ fuel ih =>
    intro i e he
    simp only [verifyGo] at he
    rcases hp : poll i with len | _ | _ <;> rw [hp] at he
    · by_cases hlen : len = target
      · simp [hlen] at he
        exact Or.inl ⟨i, he⟩
      · simp [hlen] at he
        rcases he with h | h | h
        · exact Or.inl ⟨i, h⟩
        · exact Or.inr h
        · exact ih (i + 1) e h
    · simp at he
      rcases he with h | h | h
      · exact Or.inl ⟨i, h⟩
      · exact Or.inr h
      · exact ih (i + 1) e h
    · simp at he
      rcases he with h | h | h
      · exact Or.inl ⟨i, h⟩
      · exact Or.inr h
      · exact ih (i + 1) e h
    · simp at he
      exact Or.inl ⟨i, he⟩

lemma verifyGo_attemptCount_le (poll : Nat → PollOutcome) (target : Nat) :
    ∀ fuel i, attemptCount (verifyGo poll target fuel i).1 ≤ fuel := by
  intro fuel
  induction fuel with
  | zero => intro i; simp [verifyGo, attemptCount]
  | succ fuel ih =>
    intro i
    simp only [verifyGo]
    rcases poll i with len | _ | _
    · by_cases hlen : len = target
      · simp [hlen, attemptCount]
      · simp only [hlen, if_false, attemptCount, List.countP_cons]
        have := ih (i + 1)
        simp only [attemptCount] at this
        simp
        omega
    · simp only [attemptCount, List.countP_cons]
      have := ih (i + 1)
      simp only [attemptCount] at this
      simp
      omega
    · simp only [attemptCount, List.countP_cons]
      have := ih (i + 1)
      simp only [attemptCount] at this
      simp
      omega
    · simp [attemptCount]

lemma verifyGo_length_le (poll : Nat → PollOutcome) (target : Nat) :
    ∀ fuel i, (verifyGo poll target fuel i).1.length ≤ 2 * fuel := by
  intro fuel
  induction fuel with
  | zero => intro i; simp [verifyGo]
  | succ fuel ih =>
    intro i
    simp only [verifyGo]
    rcases poll i with len | _ | _
    · by_cases hlen : len = target
      · simp [hlen]; omega
      · simp only [hlen, if_false, List.length_cons]
        have := ih (i + 1)
        omega
    · simp only [List.length_cons]
      have := ih (i + 1)
      omega
    · simp only [List.length_cons]
      have := ih (i + 1)
      omega
    · simp; omega

lemma verifyGo_false_of_no_match (poll : Nat → PollOutcome) (target : Nat) :
    ∀ fuel i, (∀ j, i ≤ j → j < i + fuel → pollMatches target (poll j) = false) →
      (verifyGo poll target fuel i).2 = false := by
  intro fuel
  induction fuel with
  | zero => intro i _; simp [verifyGo]
  | succ fuel ih =>
    intro i h
    simp only [verifyGo]
    rcases hp : poll i with len | _ | _ <;> try rfl
    · by_cases hlen : len = target
      · exfalso
        have := h i le_rfl (by omega)
        rw [hp] at this
        simp [pollMatches, hlen] at this
      · simp only [hlen, if_false]
        exact ih (i + 1) (fun j h1 h2 => h j (by omega) (by omega))
    · exact ih (i + 1) (fun j h1 h2 => h j (by omega) (by omega))
    · exact ih (i + 1) (fun j h1 h2 => h j (by omega) (by omega))

lemma reservedLens_verify (poll : Nat → PollOutcome) (target fuel i : Nat) :
    reservedLens (verifyGo poll target fuel i).1 = [] := by
  rw [reservedLens, List.filterMap_eq_nil_iff]
  intro e he
  rcases verifyGo_events_shape poll target fuel i e he with ⟨j, rfl⟩ | rfl <;> rfl

lemma putPairs_verify (poll : Nat → PollOutcome) (target fuel i : Nat) :
    putPairs (verifyGo poll target fuel i).1 = [] := by
  rw [putPairs, List.filterMap_eq_nil_iff]
  intro e he
  rcases verifyGo_events_shape poll target fuel i e he with ⟨j, rfl⟩ | rfl <;> rfl

lemma fallbackLens_verify (poll : Nat → PollOutcome) (target fuel i : Nat) :
    fallbackLens (verifyGo poll target fuel i).1 = [] := by
  rw [fallbackLens, List.filterMap_eq_nil_iff]
  intro e he
  rcases verifyGo_events_shape poll target fuel i e he with ⟨j, rfl⟩ | rfl <;> rfl

lemma sleepDurations_verify (poll : Nat → PollOutcome) (target fuel i : Nat) :
    ∀ ms ∈ sleepDurations (verifyGo poll target fuel i).1, ms = 1000 := by
  intro ms hms
  rw [sleepDurations, List.mem_filterMap] at hms
  obtain ⟨e, he, hfe⟩ := hms
  rcases verifyGo_events_shape poll target fuel i e he with ⟨j, rfl⟩ | rfl
  · simp at hfe
  · simp at hfe
    omega

/-- Claim C3: the byte length declared when reserving the upload
destination (`length: byteLen`) always equals the byte length actually
transferred (the PUT sends `bodyBuf` with `Content-Length: byteLen`,
where `byteLen = bodyBuf.length`), and every run that ends in a terminal
success state performed exactly that transfer. -/
theorem declared_length_invariant (env : DeliveryEnv) (pdfBytes : List Nat) :
    reservedLens (runDelivery env pdfBytes).events = [pdfBytes.length]
    ∧ (∀ p ∈ putPairs (runDelivery env pdfBytes).events,
        p = (pdfBytes.length, pdfBytes.length))
    ∧ (∀ b ∈ fallbackLens (runDelivery env pdfBytes).events, b = pdfBytes.length)
    ∧ (isSuccess (runDelivery env pdfBytes).final = true →
        putPairs (runDelivery env pdfBytes).events
          = [(pdfBytes.length, pdfBytes.length)]) := by
  have hres : ∀ vtr, reservedLens vtr = [] →
      reservedLens ([DEvent.reserve pdfBytes.length,
        .put pdfBytes.length pdfBytes.length, .finalize] ++ vtr)
        = [pdfBytes.length] := by
    intro vtr h
    rw [reservedLens, List.filterMap_append]
    rw [reservedLens] at h
    rw [h]
    rfl
  have hput : ∀ vtr, putPairs vtr = [] →
      putPairs ([DEvent.reserve pdfBytes.length,
        .put pdfBytes.length pdfBytes.length, .finalize] ++ vtr)
        = [(pdfBytes.length, pdfBytes.length)] := by
    intro vtr h
    rw [putPairs, List.filterMap_append]
    rw [putPairs] at h
    rw [h]
    rfl
  have hfb : ∀ vtr, fallbackLens vtr = [] →
      fallbackLens ([DEvent.reserve pdfBytes.length,
        .put pdfBytes.length pdfBytes.length, .finalize] ++ vtr)
        = [] := by
    intro vtr h
    rw [fallbackLens, List.filterMap_append]
    rw [fallbackLens] at h
    rw [h]
    rfl
  have happ : ∀ (l : List DEvent),
      reservedLens (l ++ [DEvent.fallbackUpload pdfBytes.length])
          = reservedLens l
        ∧ putPairs (l ++ [DEvent.fallbackUpload pdfBytes.length]) = putPairs l
        ∧ fallbackLens (l ++ [DEvent.fallbackUpload pdfBytes.length])
          = fallbackLens l ++ [pdfBytes.length] := by
    intro l
    refine ⟨?_, ?_, ?_⟩ <;>
      simp [reservedLens, putPairs, fallbackLens, List.filterMap_append]
  by_cases h1 : env.initOk
  case neg =>
    have hrun : runDelivery env pdfBytes =
        { events := [.reserve pdfBytes.length], stages := [.reserving]
          final := .failed } := by
      simp [runDelivery, h1]
    rw [hrun]
    simp [reservedLens, putPairs, fallbackLens, isSuccess]
  by_cases h2 : env.putOk
  case neg =>
    have hrun : runDelivery env pdfBytes =
        { events := [.reserve pdfBytes.length,
            .put pdfBytes.length pdfBytes.length]
          stages := [.reserving, .transferring], final := .failed } := by
      simp [runDelivery, h1, h2]
    rw [hrun]
    simp [reservedLens, putPairs, fallbackLens, isSuccess]
  by_cases h3 : env.completeOk
  case neg =>
    have hrun : runDelivery env pdfBytes =
        { events := [.reserve pdfBytes.length,
            .put pdfBytes.length pdfBytes.length, .finalize]
          stages := [.reserving, .transferring, .finalizing]
          final := .failed } := by
      simp [runDelivery, h1, h2, h3]
    rw [hrun]
    simp [reservedLens, putPairs, fallbackLens, isSuccess]
  by_cases hv : (verifyGo env.poll pdfBytes.length 8 0).2
  · have hrun : runDelivery env pdfBytes =
        { events := [.reserve pdfBytes.length,
            .put pdfBytes.length pdfBytes.length, .finalize]
              ++ (verifyGo env.poll pdfBytes.length 8 0).1
          stages := [.reserving, .transferring, .finalizing, .verifying, .done]
          final := .done } := by
      simp [runDelivery, h1, h2, h3, hv]
    rw [hrun]
    refine ⟨hres _ (reservedLens_verify _ _ _ _), ?_, ?_,
      fun _ => hput _ (putPairs_verify _ _ _ _)⟩
    · rw [hput _ (putPairs_verify _ _ _ _)]
      simp
    · rw [hfb _ (fallbackLens_verify _ _ _ _)]
      simp
  · have hrun : (runDelivery env pdfBytes).events =
          ([DEvent.reserve pdfBytes.length,
            .put pdfBytes.length pdfBytes.length, .finalize]
              ++ (verifyGo env.poll pdfBytes.length 8 0).1)
            ++ [.fallbackUpload pdfBytes.length]
        ∧ ((runDelivery env pdfBytes).final = DStage.fallbackDone
            ∨ (runDelivery env pdfBytes).final = DStage.failed) := by
      by_cases hf : env.fallbackOk <;>
        simp [runDelivery, h1, h2, h3, hv, hf]
    obtain ⟨hev, _⟩ := hrun
    rw [hev]
    obtain ⟨ha1, ha2, ha3⟩ := happ
      ([DEvent.reserve pdfBytes.length,
        .put pdfBytes.length pdfBytes.length, .finalize]
          ++ (verifyGo env.poll pdfBytes.length 8 0).1)
    refine ⟨?_, ?_, ?_, ?_⟩
    · rw [ha1]
      exact hres _ (reservedLens_verify _ _ _ _)
    · rw [ha2, hput _ (putPairs_verify _ _ _ _)]
      simp
    · rw [ha3, hfb _ (fallbackLens_verify _ _ _ _)]
      simp
    · intro _
      rw [ha2]
      exact hput _ (putPairs_verify _ _ _ _)

/-- Witness for claim C3: in the all-success environment with a two-byte
document, success is declared and the single transfer carried exactly the
declared two bytes. -/
theorem declared_length_invariant_witness :
    putPairs (runDelivery exEnvAllOk [7, 7]).events = [(2, 2)] :=
  (declared_length_invariant exEnvAllOk [7, 7]).2.2.2 (by decide)

/-- Claim C2: exhausting every verification poll attempt without a
byte-length match is not a terminal failure — the machine enters the
fallback transfer, and when the fallback upload succeeds the run ends in
`FallbackDone`, never `Failed`. -/
theorem verify_exhaustion_not_fatal (env : DeliveryEnv) (pdfBytes : List Nat)
    (h1 : env.initOk = true) (h2 : env.putOk = true) (h3 : env.completeOk = true)
    (hpoll : ∀ i < 8, pollMatches pdfBytes.length (env.poll i) = false)
    (hfb : env.fallbackOk = true) :
    (runDelivery env pdfBytes).final = DStage.fallbackDone
    ∧ DStage.fallbackTransferring ∈ (runDelivery env pdfBytes).stages
    ∧ (runDelivery env pdfBytes).final ≠ DStage.failed := by
  have hv : (verifyGo env.poll pdfBytes.length 8 0).2 = false :=
    verifyGo_false_of_no_match env.poll pdfBytes.length 8 0
      (fun j hj1 hj2 => hpoll j (by omega))
  have hrun : runDelivery env pdfBytes =
      { events := [.reserve pdfBytes.length,
          .put pdfBytes.length pdfBytes.length, .finalize]
            ++ (verifyGo env.poll pdfBytes.length 8 0).1
            ++ [.fallbackUpload pdfBytes.length]
        stages := [.reserving, .transferring, .finalizing, .verifying,
          .fallbackTransferring, .fallbackDone]
        final := .fallbackDone } := by
    simp [runDelivery, h1, h2, h3, hv, hfb]
  rw [hrun]
  refine ⟨rfl, by simp, by simp⟩

/-- Witness for claim C2: polls that never resolve a download URL exhaust
all 8 attempts, and the run ends in `FallbackDone`. -/
theorem verify_exhaustion_not_fatal_witness :
    (runDelivery exEnvNoMatch [7, 7]).final = DStage.fallbackDone :=
  (verify_exhaustion_not_fatal exEnvNoMatch [7, 7] rfl rfl rfl (by decide) rfl).1

/-- Claim C9: the verification stage always terminates — every delivery
run performs at most 8 poll attempts, every inter-attempt sleep is
exactly 1000 ms, and the whole delivery path emits a bounded event trace
(at most 20 events), so no unbounded retry loop exists. -/
theorem verification_bounded (env : DeliveryEnv) (pdfBytes : List Nat) :
    attemptCount (runDelivery env pdfBytes).events ≤ 8
    ∧ (∀ ms ∈ sleepDurations (runDelivery env pdfBytes).events, ms = 1000)
    ∧ (runDelivery env pdfBytes).events.length ≤ 20 := by
  have hcnt := verifyGo_attemptCount_le env.poll pdfBytes.length 8 0
  have hlen := verifyGo_length_le env.poll pdfBytes.length 8 0
  have hslp := sleepDurations_verify env.poll pdfBytes.length 8 0
  have base : ∀ (pre post : List DEvent),
      attemptCount pre = 0 → attemptCount post = 0 →
      sleepDurations pre = [] → sleepDurations post = [] →
      attemptCount (pre ++ (verifyGo env.poll pdfBytes.length 8 0).1 ++ post) ≤ 8
      ∧ (∀ ms ∈ sleepDurations
          (pre ++ (verifyGo env.poll pdfBytes.length 8 0).1 ++ post), ms = 1000)
      ∧ (pre ++ (verifyGo env.poll pdfBytes.length 8 0).1 ++ post).length
          ≤ pre.length + 16 + post.length := by
    intro pre post hc1 hc2 hs1 hs2
    refine ⟨?_, ?_, ?_⟩
    · simp only [attemptCount, List.countP_append] at *
      omega
    · intro ms hms
      rw [sleepDurations, List.filterMap_append, List.filterMap_append] at hms
      rw [sleepDurations] at hs1 hs2 hslp
      rw [hs1, hs2] at hms
      simp only [List.nil_append, List.append_nil] at hms
      exact hslp ms hms
    · simp only [List.length_append]
      omega
  by_cases h1 : env.initOk
  case neg =>
    have hrun : (runDelivery env pdfBytes).events = [.reserve pdfBytes.length] := by
      simp [runDelivery, h1]
    rw [hrun]
    refine ⟨by simp [attemptCount], by simp [sleepDurations], by simp⟩
  by_cases h2 : env.putOk
  case neg =>
    have hrun : (runDelivery env pdfBytes).events
        = [.reserve pdfBytes.length, .put pdfBytes.length pdfBytes.length] := by
      simp [runDelivery, h1, h2]
    rw [hrun]
    refine ⟨by simp [attemptCount], by simp [sleepDurations], by simp⟩
  by_cases h3 : env.completeOk
  case neg =>
    have hrun : (runDelivery env pdfBytes).events
        = [.reserve pdfBytes.length, .put pdfBytes.length pdfBytes.length,
            .finalize] := by
      simp [runDelivery, h1, h2, h3]
    rw [hrun]
    refine ⟨by simp [attemptCount], by simp [sleepDurations], by simp⟩
  by_cases hv : (verifyGo env.poll pdfBytes.length 8 0).2
  · have hrun : (runDelivery env pdfBytes).events
        = [.reserve pdfBytes.length, .put pdfBytes.length pdfBytes.length,
            .finalize] ++ (verifyGo env.poll pdfBytes.length 8 0).1 ++ [] := by
      simp [runDelivery, h1, h2, h3, hv]
    rw [hrun]
    have := base [.reserve pdfBytes.length,
      .put pdfBytes.length pdfBytes.length, .finalize] []
      (by simp [attemptCount]) (by simp [attemptCount])
      (by simp [sleepDurations]) (by simp [sleepDurations])
    refine ⟨this.1, this.2.1, ?_⟩
    have h3le := this.2.2
    simp only [List.length_cons, List.length_nil] at h3le ⊢
    omega
  · have hrun : (runDelivery env pdfBytes).events
        = [.reserve pdfBytes.length, .put pdfBytes.length pdfBytes.length,
            .finalize] ++ (verifyGo env.poll pdfBytes.length 8 0).1
            ++ [.fallbackUpload pdfBytes.length] := by
      by_cases hf : env.fallbackOk <;> simp [runDelivery, h1, h2, h3, hv, hf]
    rw [hrun]
    have := base [.reserve pdfBytes.length,
      .put pdfBytes.length pdfBytes.length, .finalize]
      [.fallbackUpload pdfBytes.length]
      (by simp [attemptCount]) (by simp [attemptCount])
      (by simp [sleepDurations]) (by simp [sleepDurations])
    refine ⟨this.1, this.2.1, ?_⟩
    have h3le := this.2.2
    simp only [List.length_cons, List.length_nil] at h3le ⊢
    omega

/-- Witness for claim C9 at a concrete all-success run. -/
theorem verification_bounded_witness :
    attemptCount (runDelivery exEnvAllOk [7, 7]).events ≤ 8 :=
  (verification_bounded exEnvAllOk [7, 7]).1

/-! ## Layout Engine theorems (claims C1, C4, C8, C10) -/

lemma tileW_eq : tileW = 262 := by
  rw [tileW, contentW, pageW, margin, gutter]
  norm_num

lemma drawTile_snd_bounds (rend : String → RenderOutcome) (x topY : ℚ)
    (fid : String) :
    0 ≤ (drawTile rend x topY fid).2 ∧ (drawTile rend x topY fid).2 ≤ tileHMax := by
  cases h : rend fid with
  | failed => norm_num [drawTile, h, tileHMax]
  | decodeError => norm_num [drawTile, h, tileHMax]
  | img iw ih =>
    have hW : (0 : ℚ) ≤ tileW := by rw [tileW_eq]; norm_num
    have hH : (0 : ℚ) ≤ tileHMax := by rw [tileHMax]; norm_num
    have hmin : (0 : ℚ) ≤ min (tileW / (iw : ℚ)) (tileHMax / (ih : ℚ)) := by
      apply le_min
      · apply div_nonneg hW (by positivity)
      · apply div_nonneg hH (by positivity)
    simp only [drawTile, h]
    constructor
    · exact mul_nonneg (by positivity) hmin
    · rcases Nat.eq_zero_or_pos ih with hz | hpos
      · subst hz
        simpa using hH
      · have hne : ((ih : ℚ)) ≠ 0 := by positivity
        calc (ih : ℚ) * min (tileW / (iw : ℚ)) (tileHMax / (ih : ℚ))
            ≤ (ih : ℚ) * (tileHMax / (ih : ℚ)) := by
              apply mul_le_mul_of_nonneg_left (min_le_right _ _) (by positivity)
          _ = tileHMax := by field_simp

/-- Claim C10: `drawTile` is total (failures are absorbed into a fallback
text placement); for an image with positive pixel dimensions the returned
row height is strictly positive and at most `tileHMax = 240`; both
failure branches return exactly `tileHMax`; and any image row advances
the cursor by at most `tileHMax` plus the fixed 14-unit row gap. -/
theorem drawTile_total_bounds (rend : String → RenderOutcome) (x topY : ℚ)
    (fid : String) :
    (0 ≤ (drawTile rend x topY fid).2 ∧ (drawTile rend x topY fid).2 ≤ tileHMax)
    ∧ (∀ iw ih : Nat, rend fid = .img iw ih → 0 < iw → 0 < ih →
        0 < (drawTile rend x topY fid).2)
    ∧ (rend fid = .failed → (drawTile rend x topY fid).2 = tileHMax)
    ∧ (rend fid = .decodeError → (drawTile rend x topY fid).2 = tileHMax)
    ∧ (∀ fidR, max (drawTile rend x topY fid).2 (drawTile rend x topY fidR).2 + 14
        ≤ tileHMax + 14) := by
  refine ⟨drawTile_snd_bounds rend x topY fid, ?_, ?_, ?_, ?_⟩
  · intro iw ih himg hiw hih
    have h1 : (0 : ℚ) < tileW / (iw : ℚ) := by
      rw [tileW_eq]
      have : (0 : ℚ) < (iw : ℚ) := by exact_mod_cast hiw
      positivity
    have h2 : (0 : ℚ) < tileHMax / (ih : ℚ) := by
      rw [tileHMax]
      have : (0 : ℚ) < (ih : ℚ) := by exact_mod_cast hih
      positivity
    have h3 : (0 : ℚ) < (ih : ℚ) := by exact_mod_cast hih
    simp only [drawTile, himg]
    exact mul_pos h3 (lt_min h1 h2)
  · intro h
    simp only [drawTile, h]
  · intro h
    simp only [drawTile, h]
  · intro fidR
    have hA := (drawTile_snd_bounds rend x topY fid).2
    have hB := (drawTile_snd_bounds rend x topY fidR).2
    have : max (drawTile rend x topY fid).2 (drawTile rend x topY fidR).2
        ≤ tileHMax := max_le hA hB
    linarith

/-- Witness for claim C10: a 500 × 400 image scales to height 209.6,
strictly positive and within the 240-unit cap. -/
theorem drawTile_total_bounds_witness :
    0 < (drawTile exRend 36 700 "F1").2 :=
  (drawTile_total_bounds exRend 36 700 "F1").2.1 500 400 rfl
    (by norm_num) (by norm_num)

/-- Claim C8: the Layout Engine is a deterministic function of the group
sequence, the width metric, the per-image render outcomes, the Spanish
flag and the title — two runs on equal inputs produce the same page count
and identical placed items (coordinates included); there is no hidden
randomness in the embedding. -/
theorem layout_deterministic (w1 w2 : String → ℚ → ℚ)
    (r1 r2 : String → RenderOutcome) (a1 a2 : Bool) (t1 t2 : String)
    (g1 g2 : List Group) (hw : w1 = w2) (hr : r1 = r2) (ha : a1 = a2)
    (ht : t1 = t2) (hg : g1 = g2) :
    pageCount (runLayout w1 r1 a1 t1 g1) = pageCount (runLayout w2 r2 a2 t2 g2)
    ∧ allItems (runLayout w1 r1 a1 t1 g1) = allItems (runLayout w2 r2 a2 t2 g2) := by
  subst hw hr ha ht hg
  exact ⟨rfl, rfl⟩

/-- Witness for claim C8 at a concrete input pair. -/
theorem layout_deterministic_witness :
    pageCount (runLayout charWidth exRend false "T" [])
      = pageCount (runLayout charWidth exRend false "T" []) :=
  (layout_deterministic charWidth charWidth exRend exRend false false "T" "T"
    [] [] rfl rfl rfl rfl rfl).1

lemma allItems_emit (it : Item) (s : LState) :
    allItems (emit it s) = allItems s ++ [it] := by
  simp [allItems, emit]

lemma allItems_ensureSpace (r : ℚ) (s : LState) :
    allItems (ensureSpace r s) = allItems s := by
  unfold ensureSpace allItems
  split
  · simp
  · rfl

lemma allItems_withY (s : LState) (q : ℚ) :
    allItems { s with y := q } = allItems s := rfl

lemma tileRefs_append (a b : List Item) :
    tileRefs (a ++ b) = tileRefs a ++ tileRefs b :=
  List.filterMap_append a b tileRef

lemma tileRef_drawTile (rend : String → RenderOutcome) (x topY : ℚ)
    (fid : String) :
    tileRef (drawTile rend x topY fid).1 = some fid := by
  cases h : rend fid <;> simp [drawTile, h, tileRef]

lemma tileRefs_drawTextColumn (x size lh : ℚ) (ls : List String) :
    ∀ yy, tileRefs (drawTextColumn x size lh ls yy) = [] := by
  induction ls with
  | nil => intro yy; rfl
  | cons l ls ih =>
    intro yy
    simp [drawTextColumn, tileRefs, tileRef, List.filterMap_cons] at *
    exact ih (yy - lh)

lemma tileRefs_drawCaptionBlock (caps : List String) (s : LState) :
    tileRefs (allItems (drawCaptionBlock caps s)) = tileRefs (allItems s) := by
  unfold drawCaptionBlock
  split
  · show tileRefs (allItems (LState.mk s.donePages
      (s.cur ++ drawTextColumn margin captionSize lineH caps (s.y - captionSize)) _))
      = tileRefs (allItems s)
    simp only [allItems, tileRefs, List.filterMap_append, ← List.append_assoc]
    have := tileRefs_drawTextColumn margin captionSize lineH caps (s.y - captionSize)
    rw [tileRefs] at this
    rw [this]
    simp
  · rfl

lemma tileRefs_drawSpanishBlock (esl : List String) (s : LState) :
    tileRefs (allItems (drawSpanishBlock esl s)) = tileRefs (allItems s) := by
  unfold drawSpanishBlock
  split
  · show tileRefs (allItems (LState.mk s.donePages
      (s.cur ++ drawTextColumn margin captionEsSize lineHes esl (s.y - captionEsSize)) _))
      = tileRefs (allItems s)
    simp only [allItems, tileRefs, List.filterMap_append, ← List.append_assoc]
    have := tileRefs_drawTextColumn margin captionEsSize lineHes esl (s.y - captionEsSize)
    rw [tileRefs] at this
    rw [this]
    simp
  · rfl

lemma tileRefs_imageRows (rend : String → RenderOutcome) :
    ∀ (l : List String) (s : LState),
      tileRefs (allItems (imageRows rend l s)) = tileRefs (allItems s) ++ l := by
  have H : ∀ (n : Nat) (l : List String) (s : LState), l.length ≤ n →
      tileRefs (allItems (imageRows rend l s)) = tileRefs (allItems s) ++ l := by
    intro n
    induction n with
    | zero =>
      intro l s hl
      have : l = [] := List.eq_nil_of_length_eq_zero (Nat.le_zero.mp hl)
      subst this
      simp [imageRows]
    | succ n ih =>
      intro l s hl
      match l with
      | [] => simp [imageRows]
      | [a] =>
        simp only [imageRows, allItems_withY, allItems_emit, allItems_ensureSpace,
          tileRefs_append]
        rw [show tileRefs [(drawTile rend margin
            (ensureSpace (tileHMax + 14) s).y a).1] = [a] by
          rw [tileRefs, List.filterMap_cons, tileRef_drawTile]
          rfl]
      | a :: b :: rest =>
        have hrest : rest.length ≤ n := by
          simp only [List.length_cons] at hl
          omega
        simp only [imageRows]
        rw [ih rest _ hrest]
        simp only [allItems_withY, allItems_emit, allItems_ensureSpace,
          tileRefs_append]
        rw [show tileRefs [(drawTile rend margin
            (ensureSpace (tileHMax + 14) s).y a).1] = [a] by
          rw [tileRefs, List.filterMap_cons, tileRef_drawTile]
          rfl]
        rw [show tileRefs [(drawTile rend (margin + tileW + gutter)
            (emit (drawTile rend margin (ensureSpace (tileHMax + 14) s).y a).1
              (ensureSpace (tileHMax + 14) s)).y b).1] = [b] by
          rw [tileRefs, List.filterMap_cons, tileRef_drawTile]
          rfl]
        simp
  intro l s
  exact H l.length l s le_rfl

lemma tileRefs_groupStep (widthOf : String → ℚ → ℚ)
    (rend : String → RenderOutcome) (addSpanish : Bool) (idx : Nat) (g : Group)
    (s : LState) :
    tileRefs (allItems (groupStep widthOf rend addSpanish idx g s))
      = tileRefs (allItems s) ++ g.fileIds := by
  unfold groupStep
  rw [allItems_withY, tileRefs_imageRows, tileRefs_drawSpanishBlock,
    tileRefs_drawCaptionBlock, allItems_ensureSpace]

lemma tileRefs_groupLoop (widthOf : String → ℚ → ℚ)
    (rend : String → RenderOutcome) (addSpanish : Bool) :
    ∀ (gs : List Group) (idx : Nat) (s : LState),
      tileRefs (allItems (groupLoop widthOf rend addSpanish idx gs s))
        = tileRefs (allItems s) ++ (gs.map Group.fileIds).flatten := by
  intro gs
  induction gs with
  | nil => intro idx s; simp [groupLoop]
  | cons g gs ih =>
    intro idx s
    simp only [groupLoop]
    rw [ih, tileRefs_groupStep]
    simp

/-- Claim C1: the layout consumes every image reference claimed by every
group exactly once and in order — the file ids of the tile outputs
(scaled image placements and fallback text placements) across the final
page sequence are exactly the concatenation of the groups' image
reference lists, so no claimed image is ever omitted or duplicated. -/
theorem layout_consumes_every_image_once (widthOf : String → ℚ → ℚ)
    (rend : String → RenderOutcome) (addSpanish : Bool) (title : String)
    (groups : List Group) :
    tileRefs (allItems (runLayout widthOf rend addSpanish title groups))
      = (groups.map Group.fileIds).flatten := by
  unfold runLayout
  rw [tileRefs_groupLoop]
  rfl

lemma splitWsGo_nonws_space (p : List Char) :
    ∀ cur, (∀ c ∈ p, c.isWhitespace = false) →
      splitWsGo (p ++ [' ']) (some cur) = [String.mk (cur.reverse ++ p), ""] := by
  induction p with
  | nil =>
    intro cur h
    simp [splitWsGo]
  | cons c p ih =>
    intro cur h
    have hc : c.isWhitespace = false := h c (List.mem_cons_self c p)
    have hp : ∀ a ∈ p, a.isWhitespace = false :=
      fun a ha => h a (List.mem_cons_of_mem c ha)
    simp only [List.cons_append, splitWsGo, hc, Bool.false_eq_true, if_false]
    rw [show p.append [' '] = p ++ [' '] from rfl, ih (c :: cur) hp]
    simp

lemma splitWs_empty_caption (num : Nat)
    (h : ∀ c ∈ (toString num).toList, c.isWhitespace = false) :
    splitWs (stripCR (englishBlock num "")) =
      [String.mk ((toString num).toList ++ ['.']), ""] := by
  have hdata : (stripCR (englishBlock num "")).toList
      = ((toString num).toList ++ ['.']) ++ [' '] := by
    show ((englishBlock num "").toList.filter (fun c => c ≠ '\r'))
      = ((toString num).toList ++ ['.']) ++ [' ']
    have hblock : (englishBlock num "").toList
        = (toString num).toList ++ ['.', ' '] := by
      show ((toString num ++ ". ") ++ "").data = (toString num).data ++ ['.', ' ']
      rw [String.data_append, String.data_append]
      simp
    rw [hblock]
    rw [List.filter_eq_self.mpr]
    · simp
    · intro a ha
      rcases List.mem_append.mp ha with hm | hm
      · have := h a hm
        simp only [ne_eq, decide_eq_true_eq]
        intro he
        subst he
        exact absurd this (by simp)
      · simp only [List.mem_cons, List.mem_singleton] at hm
        rcases hm with rfl | hm
        · simp
        · simp at hm
          subst hm
          simp
  show splitWsGo (stripCR (englishBlock num "")).toList (some []) = _
  rw [hdata]
  rw [splitWsGo_nonws_space]
  · simp
  · intro c hc
    rcases List.mem_append.mp hc with hm | hm
    · exact h c hm
    · simp at hm
      subst hm
      rfl

lemma capLines_empty_caption (widthOf : String → ℚ → ℚ) (num : Nat)
    (h : ∀ c ∈ (toString num).toList, c.isWhitespace = false) :
    (capLinesOf widthOf num "").length = 1 := by
  rw [capLinesOf, wrap, splitWs_empty_caption num h]
  set w1 := String.mk ((toString num).toList ++ ['.']) with hw1def
  have hw1 : (w1 = "") = False := by
    simp only [eq_iff_iff, iff_false]
    intro he
    have : ((toString num).toList ++ ['.']) = ([] : List Char) :=
      congrArg String.data he
    simp at this
  have hw2 : (w1 ++ " " ++ "" = "") = False := by
    simp only [eq_iff_iff, iff_false]
    intro he
    have := congrArg String.data he
    rw [String.data_append, String.data_append] at this
    simp at this
  by_cases hA : widthOf w1 captionSize ≤ contentW
  · simp only [wrapGo, ne_eq, not_true_eq_false, reduceIte, hA, if_true, hw1,
      not_false_eq_true, hw2, maxCaptionLines]
    split <;> simp
  · simp only [wrapGo, ne_eq, not_true_eq_false, reduceIte, hA, if_false,
      maxCaptionLines, hw1, not_false_eq_true, hw2]
    split
    · simp
    · split <;> simp

lemma capHeight_empty_caption (widthOf : String → ℚ → ℚ) (num : Nat)
    (h : ∀ c ∈ (toString num).toList, c.isWhitespace = false) :
    capHeightOf widthOf num "" = 16 := by
  rw [capHeightOf]
  rw [capLines_empty_caption widthOf num h]
  norm_num [lineH, captionSize]

lemma esHeightOf_nonneg (widthOf : String → ℚ → ℚ) (addSpanish : Bool)
    (g : Group) : 0 ≤ esHeightOf widthOf addSpanish g := by
  rw [esHeightOf]
  split
  · rw [lineHes, captionEsSize]
    norm_num
    positivity
  · exact le_refl 0

/-- Claim C4, counterexample: a group with an empty caption does **not**
contribute zero caption height — the numbered prefix `"1. "` always wraps
to one line, so the caption height is `lineH + 2 = 16`, not 0, and a
caption text run is drawn. -/
theorem empty_caption_nonzero_height :
    capHeightOf charWidth 1 "" ≠ 0 := by
  rw [capHeight_empty_caption charWidth 1 (by decide)]
  norm_num

/-- Claim C4, amended: a group with an empty caption still contributes a
caption block of exactly one wrapped line (the numbering prefix), of
height 16, for every width metric; space for the group's images is still
reserved (the reserve handed to `ensureSpace` is at least
`tileHMax + 14` whenever the group has images); and a group with zero
images contributes no tile output and the layout step is total (it does
not crash). -/
theorem empty_caption_amended (widthOf : String → ℚ → ℚ)
    (rend : String → RenderOutcome) (addSpanish : Bool) (idx num : Nat)
    (g : Group) (s : LState)
    (hnum : ∀ c ∈ (toString num).toList, c.isWhitespace = false) :
    (capLinesOf widthOf num "").length = 1
    ∧ capHeightOf widthOf num "" = 16
    ∧ (g.caption = "" → g.fileIds ≠ [] →
        reserveOf widthOf addSpanish num g ≥ tileHMax + 14)
    ∧ (g.fileIds = [] →
        tileRefs (allItems (groupStep widthOf rend addSpanish idx g s))
          = tileRefs (allItems s)) := by
  refine ⟨capLines_empty_caption widthOf num hnum,
    capHeight_empty_caption widthOf num hnum, ?_, ?_⟩
  · intro hcap hne
    rw [reserveOf, hcap]
    have h1 : capHeightOf widthOf num "" = 16 :=
      capHeight_empty_caption widthOf num hnum
    have h2 : 0 ≤ esHeightOf widthOf addSpanish g :=
      esHeightOf_nonneg widthOf addSpanish g
    have h3 : firstRowOf g = tileHMax + 14 := by
      rw [firstRowOf]
      simp [hne]
    rw [h1, h3]
    linarith
  · intro hnil
    rw [tileRefs_groupStep, hnil]
    simp

/-- Witness for the amended claim C4 at the concrete group number 1. -/
theorem empty_caption_amended_witness :
    capHeightOf charWidth 1 "" = 16 :=
  (empty_caption_amended charWidth exRend false 0 1
    { caption := "", captionEs := none, fileIds := [] }
    (initState "T") (by decide)).2.1

end SlackCollate
